import Mathlib

/-!
Verification of the `menu/` action-engine of the repository
(`hook_manager.py`, `action.py`, `option.py`, `hooks.py`, `menu.py`,
`menu_utils.py`) against its natural-language specification.

The Python code is shallowly embedded: mutable dictionaries become Lean
structures, exceptions become an `Except` monad over an explicit exception
type, and wall-clock time becomes an explicit integer clock threaded through
a `World` state.  Every definition carries a comment pointing at the source
lines it embeds.
-/

namespace MenuSpec

/-- Exceptions of the embedded Python code.  `userErr n` stands for an
arbitrary user-defined exception raised by an action body; `valueErr` is
Python's `ValueError` (raised by `HookManager.register`/`trigger` for an
unsupported hook type, hook_manager.py:41,53); `typeErr` is Python's
`TypeError` (raised e.g. when a function is called with a keyword argument
its signature does not accept, or by `raise None`); `menuErr` is
`MenuError` from menu.py:48; `optionExists` is `OptionAlreadyExistsError`
from menu.py:52; `interrupted` stands for `KeyboardInterrupt`/`EOFError`;
`fuelOut` is an artifact of the fuel-indexed interpreter and never occurs
in any run considered by the theorems; `chained e cause` is `raise e from
cause`. -/
inductive Exc where
  | userErr (n : Nat)
  | valueErr (msg : String)
  | typeErr
  | menuErr (msg : String)
  | optionExists (msg : String)
  | interrupted
  | fuelOut
  | chained (raised : Exc) (cause : Exc)
  deriving DecidableEq, Repr

/-- Python values returned by action bodies, as far as the claims need
them: `None`, naturals, strings, and a tuple of positional arguments
(used to observe argument passing). -/
inductive Val where
  | vnone
  | vnat (n : Nat)
  | vstr (s : String)
  | vargs (pos : List Nat)
  deriving DecidableEq, Repr

/-! ## HookManager (hook_manager.py)

`HookManager._hooks` is a `dict[str, list[Hook]]` initialised with the four
phases (hook_manager.py:31-37).  A Python dict is embedded as an
association list; assignment `d[k] = v` replaces the value of an existing
key or appends a new entry, which is exactly what `hmSet` does. -/

/-- The part of a `HookContext` (hook_manager.py:17-24) that
`HookManager.trigger` itself reads: the `name` key (for the log message)
and the `exception` key (re-raised when an `on_error` hook fails). -/
structure HCtx where
  name : String := ""
  exception : Option Exc := none

/-- A hook registered in a `HookManager`, for the standalone
`trigger` model: either a callable that returns normally (possibly
mutating the context) or one that raises. -/
inductive HookB where
  | act (f : HCtx → HCtx)
  | raises (e : Exc)

/-- The hook registry: keys of `HookManager._hooks` with their hook
lists, in dict insertion order. -/
abbrev HM := List (String × List HookB)

/-- Python dict assignment `self._hooks[k] = v`: replace the entry if the
key is present, otherwise append a new entry. -/
def hmSet : HM → String → List HookB → HM
  | [], k, v => [(k, v)]
  | (k', v') :: rest, k, v =>
      if k' = k then (k', v) :: rest else (k', v') :: hmSet rest k v

/-- Python dict lookup / `in` test on `self._hooks`. -/
def hmLookup : HM → String → Option (List HookB)
  | [], _ => none
  | (k', v') :: rest, k => if k' = k then some v' else hmLookup rest k

/-- The dict built by `HookManager.__init__` (hook_manager.py:31-37). -/
def initHM : HM := [("before", []), ("after", []), ("on_error", []), ("on_teardown", [])]

/-- `HookManager.register` (hook_manager.py:39-42): raise `ValueError` if
the hook type is not a key of `_hooks`, else append the hook. -/
def register (hm : HM) (hookType : String) (hook : HookB) : Except Exc HM :=
  match hmLookup hm hookType with
  | none => .error (.valueErr ("Unsupported hook type: " ++ hookType))
  | some hooks => .ok (hmSet hm hookType (hooks ++ [hook]))

/-- `HookManager.clear` (hook_manager.py:44-49).  `if hook_type:` is a
Python truthiness test, so the empty string (like `None`) selects the
else-branch, which empties every existing phase; any other string is
assigned directly — `self._hooks[hook_type] = []` — which *creates* the
entry when the key was not present. -/
def hmClear (hm : HM) (hookType : Option String) : HM :=
  match hookType with
  | some t => if t ≠ "" then hmSet hm t [] else hm.map (fun p => (p.1, []))
  | none => hm.map (fun p => (p.1, []))

/-- One step of the loop in `HookManager.trigger` (hook_manager.py:54-66):
run the hooks in registration order; a raising hook is caught and logged;
if the phase is `on_error` the original `context.get("exception")` is
re-raised `from` the hook's exception immediately (when the context holds
no exception, `raise None` is a `TypeError`).  Returns the 0-based indices
of the hooks that were invoked together with the outcome. -/
def triggerGo (hookType : String) : List HookB → HCtx → Nat → List Nat →
    List Nat × Except Exc HCtx
  | [], ctx, _, acc => (acc, .ok ctx)
  | .act f :: rest, ctx, i, acc => triggerGo hookType rest (f ctx) (i + 1) (acc ++ [i])
  | .raises e :: rest, ctx, i, acc =>
      if hookType = "on_error" then
        (acc ++ [i],
          match ctx.exception with
          | some orig => .error (.chained orig e)
          | none => .error .typeErr)
      else triggerGo hookType rest ctx (i + 1) (acc ++ [i])

/-- `HookManager.trigger` (hook_manager.py:51-66): raise `ValueError` on an
unknown hook type, else run the registered hooks. -/
def trigger (hm : HM) (hookType : String) (ctx : HCtx) : List Nat × Except Exc HCtx :=
  match hmLookup hm hookType with
  | none => ([], .error (.valueErr ("Unsupported hook type: " ++ hookType)))
  | some hooks => triggerGo hookType hooks ctx 0 []

/-- Decidable equality of `Except` outcomes, used to evaluate the models
on concrete inputs. -/
instance {ε α : Type} [DecidableEq ε] [DecidableEq α] : DecidableEq (Except ε α) := fun x y =>
  match x, y with
  | .ok a, .ok b =>
      if h : a = b then .isTrue (by rw [h]) else .isFalse (fun hh => h (Except.ok.inj hh))
  | .error a, .error b =>
      if h : a = b then .isTrue (by rw [h]) else .isFalse (fun hh => h (Except.error.inj hh))
  | .ok _, .error _ => .isFalse (fun hh => Except.noConfusion hh)
  | .error _, .ok _ => .isFalse (fun hh => Except.noConfusion hh)

/-! ## ChainedAction (action.py:106-134)

A child of a chain is embedded by the observable outcome of invoking it
(`action(*args, **kwargs)` runs the child's entire lifecycle and either
returns a value or raises), together with what `ChainedAction._rollback`
reads off it: whether `hasattr(action, "rollback") and action.rollback`
holds (true exactly for an `Action` leaf constructed with a non-null
`rollback`, action.py:92-95; `ChainedAction` and `ActionGroup` objects
have no `rollback` attribute), and the outcome of calling the rollback. -/

/-- One child of a `ChainedAction`. -/
structure ChainChild where
  name : String
  body : Except Exc Val
  hasRollback : Bool
  rollbackResult : Except Exc Unit := .ok ()
  deriving Repr

/-- `ChainedAction._rollback` (action.py:127-134): walk the completed
stack in reverse; for each child with a truthy `rollback` attribute call
`action.rollback(*args, **kwargs)` inside `try/except`, so a raising
rollback only prints a warning and the loop continues.  Returns the names
of the children whose rollback was invoked, in invocation order.  The
caller passes the stack already reversed. -/
def chainRollbackCalls : List ChainChild → List String
  | [] => []
  | c :: rest =>
      if c.hasRollback then
        match c.rollbackResult with
        | .ok _ => c.name :: chainRollbackCalls rest
        | .error _ => c.name :: chainRollbackCalls rest
      else chainRollbackCalls rest

/-- The loop of `ChainedAction._run` (action.py:111-120): invoke each
child in order; on success push it onto `rollback_stack`; on the first
exception run `_rollback` on the reversed stack and re-raise.  Returns
the names of the children that were invoked, the names of the rollback
invocations, and the body's outcome (`return None` on success). -/
def chainGo (stack : List ChainChild) : List ChainChild →
    List String × List String × Except Exc Val
  | [] => ([], [], .ok .vnone)
  | c :: rest =>
      match c.body with
      | .ok _ =>
          let out := chainGo (stack ++ [c]) rest
          (c.name :: out.1, out.2.1, out.2.2)
      | .error e => ([c.name], chainRollbackCalls stack.reverse, .error e)

/-- `ChainedAction._run` (action.py:111-120) on its list of children. -/
def chainRun (actions : List ChainChild) : List String × List String × Except Exc Val :=
  chainGo [] actions

/-! ## ActionGroup (action.py:137-169) -/

/-- The Python statement `await self.hooks.trigger("before", name=self.name)`
(action.py:160; likewise lines 165, 167 and 169).  `HookManager.trigger`
is declared as `trigger(self, hook_type, context)` (hook_manager.py:51)
and has no parameter named `name` (nor `errors`/`results`), so binding the
call's keyword arguments raises `TypeError: trigger() got an unexpected
keyword argument`. -/
def triggerWithKeywordArgs : Except Exc Unit := .error .typeErr

/-- The `results`/`errors` pairs an `ActionGroup` collects
(action.py:141-142, 156-158). -/
structure GroupState where
  results : List (String × Val)
  errors : List (String × Exc)
  deriving Repr

/-- Collect the children's outcomes the way `ActionGroup._run_async.run`
does (action.py:153-158): a successful child appends `(name, result)` to
`self.results`, a failing one appends `(name, e)` to `self.errors`. -/
def groupCollect (children : List (String × Except Exc Val)) : GroupState :=
  children.foldl
    (fun st c =>
      match c.2 with
      | .ok v => { st with results := st.results ++ [(c.1, v)] }
      | .error e => { st with errors := st.errors ++ [(c.1, e)] })
    ⟨[], []⟩

/-- `ActionGroup._run_async` (action.py:152-169), with each child embedded
by its name and the outcome of invoking it.  The body first evaluates
`await self.hooks.trigger("before", name=self.name)`, which raises
`TypeError` (see `triggerWithKeywordArgs`), so the function raises before
any child is launched; the rest of the source — gather the children,
then `trigger("on_error", name=..., errors=self.errors)` if `self.errors`
else `trigger("after", name=..., results=self.results)`, then
`trigger("on_teardown", name=...)`, with no `return` — is written out
after it. -/
def actionGroupRunAsync (children : List (String × Except Exc Val)) :
    Except Exc GroupState := do
  let _ ← triggerWithKeywordArgs
  let st := groupCollect children
  if st.errors ≠ [] then
    let _ ← triggerWithKeywordArgs
  else
    let _ ← triggerWithKeywordArgs
  let _ ← triggerWithKeywordArgs
  pure st

/-- Modelled from the spec: the ActionGroup body the specification
describes (spec §4.5) — after all children complete, if `errors` is empty
the body returns normally with the collected results, otherwise it raises
an `AggregateError` "carrying the list of `(name, exception)` pairs".
No `AggregateError` class exists anywhere in the repository; this
definition exists only to state the divergence. -/
def actionGroupSpecModel (children : List (String × Except Exc Val)) :
    Except (List (String × Exc)) GroupState :=
  let st := groupCollect children
  if st.errors ≠ [] then .error st.errors else .ok st

/-! ## Option._execute_action (option.py:98-101) -/

/-- The `action` attribute of an `Option` (option.py:39): either a
`BaseAction` — invoked with the option's positional and keyword arguments
— or a raw callable.  Both are embedded as functions of the positional
and keyword arguments so that what the code passes is observable;
keyword arguments are name/value pairs. -/
inductive OptAction where
  | base (f : List Nat → List (String × Nat) → Val)
  | raw (f : List Nat → List (String × Nat) → Val)

/-- `Option._execute_action` (option.py:98-101): a `BaseAction` is called
as `self.action(*args, **kwargs)`; anything else is called as
`self.action()`, i.e. with an empty argument tuple and an empty keyword
dict. -/
def executeAction : OptAction → List Nat → List (String × Nat) → Val
  | .base f, args, kwargs => f args kwargs
  | .raw f, _, _ => f [] []

/-! ## Menu key registry (menu.py:68-90, 308-311, 313-334, 349-388) -/

/-- Python `str.upper()` for the menu keys: uppercase every character.
Defined on the character list so that it evaluates by kernel reduction. -/
def pyUpper (s : String) : String := ⟨s.data.map Char.toUpper⟩

/-- The key-relevant state of a `Menu`: the keys of `self.options` — a
`CaseInsensitiveDict`, whose `__setitem__` stores `key.upper()`
(menu.py:71-72), so the stored keys are the uppercased forms — and the
current back-option key. -/
structure MenuReg where
  optKeys : List String
  backKey : String
  deriving DecidableEq, Repr

/-- The registry of a freshly constructed `Menu` (menu.py:222-223,
245-247): no options, back option key `"0"`. -/
def initMenuReg : MenuReg := ⟨[], "0"⟩

/-- `Menu._validate_option_key` (menu.py:308-311): `key in self.options`
goes through `CaseInsensitiveDict.__contains__` (menu.py:77-78), which
tests `key.upper()` against the stored (uppercase) keys; the back-option
collision test compares `key.upper() == self.back_option.key.upper()`. -/
def validateOptionKey (m : MenuReg) (key : String) : Except Exc Unit :=
  if pyUpper key ∈ m.optKeys ∨ pyUpper key = pyUpper m.backKey then
    .error (.optionExists ("Option with key '" ++ key ++ "' already exists."))
  else .ok ()

/-- Python dict assignment on the key set: replacing an existing key
leaves the key set unchanged, a new key is appended. -/
def dictInsertKey (ks : List String) (k : String) : List String :=
  if k ∈ ks then ks else ks ++ [k]

/-- `Menu.add_option` (menu.py:349-388), restricted to the key registry:
validate, then `self.options[key] = option`, which stores `key.upper()`
(menu.py:71-72). -/
def addOption (m : MenuReg) (key : String) : Except Exc MenuReg :=
  match validateOptionKey m key with
  | .error e => .error e
  | .ok _ => .ok { m with optKeys := dictInsertKey m.optKeys (pyUpper key) }

/-- `Menu.update_back_option` (menu.py:313-334), restricted to the key
registry: validate the new key against the options, then replace the
back option. -/
def updateBackOption (m : MenuReg) (key : String) : Except Exc MenuReg :=
  match validateOptionKey m key with
  | .error e => .error e
  | .ok _ => .ok { m with backKey := key }

/-- The key-uniqueness invariant: the stored option keys (uppercase
forms, i.e. the case-insensitive identities of the option keys) are
pairwise distinct, and none equals the back-option key compared
case-insensitively. -/
def MenuRegInv (m : MenuReg) : Prop :=
  m.optKeys.Nodup ∧ pyUpper m.backKey ∉ m.optKeys

/-! ## Menu.run_headless (menu.py:402-501) -/

/-- What `run_headless` reads off a selected `Option` of menu.py: its
`description`, its `confirm` flag, the outcome of `self.action()`
(`.error .interrupted` embeds `KeyboardInterrupt`/`EOFError` escaping the
action), and the `_result` slot as it stood before this dispatch
(menu.py:157, 162-168: `set_result` only runs on success, so on failure
`get_result` returns the stale value). -/
structure HOpt where
  description : String
  confirm : Bool
  body : Except Exc Val
  prior : Val := .vnone
  deriving DecidableEq, Repr

/-- The parts of a `Menu` that `run_headless` consults.  `options` maps
stored (uppercased) keys to option specs; the confirmation prompts are
embedded as the boolean answers the user would give (`confirmAnswer` for
`confirm(selected_option.confirm_message)`, `continueAnswer` for
`confirm("An error occurred. Do you wish to continue?")`). -/
structure HMenu where
  options : List (String × HOpt)
  backKey : String
  backOpt : HOpt
  neverConfirm : Bool
  continueOnErrorPrompt : Bool
  deriving DecidableEq, Repr

/-- Association-list lookup, i.e. `dict.get` on the stored keys. -/
def alistGet : List (String × HOpt) → String → Option HOpt
  | [], _ => none
  | (k, v) :: rest, key => if k = key then some v else alistGet rest key

/-- `Menu.get_option` (menu.py:402-406): the back key is checked first,
case-insensitively; otherwise `self.options.get(choice)` looks up
`choice.upper()` (menu.py:80-81). -/
def getOption (m : HMenu) (choice : String) : Option HOpt :=
  if pyUpper choice = pyUpper m.backKey then some m.backOpt
  else alistGet m.options (pyUpper choice)

/-- `Menu._should_run_action` (menu.py:412-415): prompt only when the
option requires confirmation and `never_confirm` is off. -/
def shouldRunAction (m : HMenu) (opt : HOpt) (confirmAnswer : Bool) : Bool :=
  if opt.confirm && !m.neverConfirm then confirmAnswer else true

/-- The decision part of `Menu._handle_action_error` (menu.py:427-438):
the option-level and menu-level error hooks are run through
`Hooks.run_hooks`, which catches every hook exception (menu.py:116-122),
so they cannot change the outcome; then the method returns whether to
continue: the answer to the continue-prompt when
`continue_on_error_prompt and not never_confirm`, else `True` when
`never_confirm`, else `False`. -/
def handleActionError (m : HMenu) (continueAnswer : Bool) : Bool :=
  if m.continueOnErrorPrompt && !m.neverConfirm then continueAnswer
  else if m.neverConfirm then true
  else false

/-- `Menu.run_headless` (menu.py:465-501).  Step by step: resolve the
key (`MenuError` naming the key when absent); confirmation
(`MenuError` on a negative answer); run the action — on success
`set_result(result)` and return `get_result()`; on
`KeyboardInterrupt`/`EOFError` raise a (non-chained) `MenuError`; on any
other exception run `_handle_action_error` and, when it says not to
continue, raise `MenuError ... from error`; when it says to continue,
fall through and return the (stale) `get_result()`.  The
`never_confirm` override parameter is folded into `m.neverConfirm`. -/
def runHeadless (m : HMenu) (confirmAnswer continueAnswer : Bool) (optionKey : String) :
    Except Exc Val :=
  match getOption m optionKey with
  | none => .error (.menuErr ("[Headless] Option '" ++ optionKey ++ "' not found."))
  | some opt =>
      if !shouldRunAction m opt confirmAnswer then
        .error (.menuErr ("[Headless] '" ++ opt.description ++ "' cancelled by confirmation."))
      else
        match opt.body with
        | .ok v => .ok v
        | .error .interrupted =>
            .error (.menuErr ("[Headless] '" ++ opt.description ++ "' interrupted by user."))
        | .error e =>
            if handleActionError m continueAnswer then .ok opt.prior
            else .error (.chained (.menuErr ("[Headless] '" ++ opt.description ++ "' failed.")) e)

/-! ## The invocation lifecycle (option.py:69-96) with a RetryHandler
(hooks.py:81-128)

`Option.__call__` runs: build a context with `duration: None`; start the
timer; trigger `before`; run the body; on exception store it in the
context and trigger `on_error`, treating a removed `exception` key as
recovery; in the `finally` block stop the timer, set `context["duration"]`,
trigger `after` when no exception remains, and always trigger
`on_teardown`.  `BaseAction.__call__` (action.py:39-65) has the identical
structure (the only differences are the absence of the `_result` slot —
recovery returns `context.get("result")` instead of `self.get_result()` —
and the `action`/`option` back-reference key), so the model below covers
both shapes; it is written as the `Option` variant, whose `hooks` can
carry `RetryHandler.retry_on_error`.

The model is a fuel-indexed interpreter, because `retry_on_error`
re-invokes the target (`target(*context.get("args", ()), ...)`,
hooks.py:108), which re-enters `Option.__call__` on the same object.  The
fuel only bounds this re-entrancy depth; every run examined below uses
ample fuel, and the `.fuelOut` outcome never occurs in it.

Wall-clock time (`time.perf_counter`, menu_utils.py:25-34) is embedded as
an integer clock in the `World` that only ever grows; `time.sleep(d)`
advances it by `d`.  The timing fields `start_time` / `_duration` live on
the option object itself (`TimingMixin`), shared between re-entrant
invocations, and are therefore part of the `World`, not of the context. -/

/-- Observable events of a lifecycle run.  `trig inv ph d` records that
phase `ph` of invocation `inv` was triggered while `context["duration"]`
was `d`; `hookRun inv ph d` records one registered hook of that phase
being invoked with the context in that state; `bodyRun inv k` records the
`k`-th execution of the underlying callable (counted across the whole
run). -/
inductive Event where
  | trig (inv : Nat) (phase : String) (duration : Option Int)
  | hookRun (inv : Nat) (phase : String) (duration : Option Int)
  | bodyRun (inv : Nat) (call : Nat)
  deriving DecidableEq, Repr

/-- The mutable context dict of one invocation (option.py:70-76): the
keys `duration` (initially `None`), `result` and `exception` (initially
absent), and the `option` back-reference (always present, read by
`retry_on_error` at hooks.py:90-101).  `inv` identifies the invocation
for the event trace. -/
structure Ctx where
  inv : Nat
  duration : Option Int := none
  result : Option Val := none
  exception : Option Exc := none
  hasTarget : Bool := true
  deriving DecidableEq, Repr

/-- The world state threaded through a run: the clock, the option
object's shared timing fields (`start_time`, `_duration`), its `_result`
slot, the count of body executions, the next fresh invocation id, and
the event trace. -/
structure World where
  clock : Int := 0
  optStart : Int := 0
  optDuration : Option Int := none
  optResult : Val := .vnone
  bodyCalls : Nat := 0
  nextInv : Nat := 0
  trace : List Event := []
  deriving DecidableEq, Repr

/-- An `on_error` hook of the modelled option: `retryH maxRetries delay
backoff` is `RetryHandler(max_retries, delay, backoff).retry_on_error`
(hooks.py:81-128); `popExc` is a recovery hook that removes the
`exception` key and returns; `inert` is an observation-only hook such as
`log_error` (hooks.py:30-37). -/
inductive OHook where
  | retryH (maxRetries delay backoff : Nat)
  | popExc
  | inert
  deriving DecidableEq, Repr

/-- The modelled option: the number of registered `before`, `after` and
`on_teardown` hooks (observation-only hooks, such as `log_before` /
`log_after` of hooks.py:12-27 — whatever such a hook does, including
raising, `trigger` swallows it for these phases and the context is
unchanged), the list of `on_error` hooks, and the body schedule: `sched
k` is the outcome of the `k`-th execution of the underlying callable. -/
structure OptCfg where
  nBefore : Nat := 0
  onError : List OHook := []
  nAfter : Nat := 0
  nTeardown : Nat := 0
  sched : Nat → Except Exc Val

/-- Advance the clock: time passes. -/
def tick (w : World) : World := { w with clock := w.clock + 1 }

/-- `TimingMixin._start_timer` (menu_utils.py:26-27): `self.start_time =
time.perf_counter()`. -/
def startTimer (w : World) : World :=
  let w := tick w
  { w with optStart := w.clock }

/-- `TimingMixin._stop_timer` (menu_utils.py:29-31): `self.end_time =
time.perf_counter(); self._duration = self.end_time - self.start_time`. -/
def stopTimer (w : World) : World :=
  let w := tick w
  { w with optDuration := some (w.clock - w.optStart) }

/-- One execution of the underlying callable
(`Option._execute_action` eventually calling the wrapped function):
records the event, bumps the global body-call counter, lets time pass,
and yields the scheduled outcome. -/
def execBody (cfg : OptCfg) (inv : Nat) (w : World) : Except Exc Val × World :=
  let k := w.bodyCalls
  let w := { w with
    bodyCalls := k + 1
    clock := w.clock + 1
    trace := w.trace ++ [Event.bodyRun inv k] }
  (cfg.sched k, w)

/-- `HookManager.trigger` (hook_manager.py:51-66) for a phase all of
whose registered hooks are observation-only: the trigger itself and one
invocation per hook are recorded; the hooks read the context but do not
change it, and for the `before` / `after` / `on_teardown` phases even a
raising hook is caught and logged without propagating, so the call always
returns normally with the context unchanged. -/
def triggerInert (phase : String) (n : Nat) (ctx : Ctx) (w : World) : World :=
  let w := { w with trace := w.trace ++ [Event.trig ctx.inv phase ctx.duration] }
  { w with trace := w.trace ++ List.replicate n (Event.hookRun ctx.inv phase ctx.duration) }

/-- The retry loop of `RetryHandler.retry_on_error` (hooks.py:103-128):
up to `max_retries` times, sleep for the current delay, re-invoke the
target; on success run `option.set_result(result)`, set
`context["result"]` and `context["duration"] = target.get_duration() or
0.0`, remove the `exception` key, trigger the target's `after` hooks with
this context (hooks.py:118-119), and return; on failure remember the new
exception, multiply the delay by `backoff`, and continue.  When the loop
exhausts, `raise last_error` (hooks.py:128) — the returned `Option Exc`
is the exception the hook raises (`raise None` is a `TypeError`). -/
def retryLoop (reinvoke : World → Except Exc Val × World) (cfg : OptCfg) :
    Nat → Nat → Nat → Option Exc → Ctx → World → Ctx × World × Option Exc
  | 0, _, _, lastErr, ctx, w =>
      (ctx, w, some (match lastErr with | some e => e | none => .typeErr))
  | n + 1, delay, backoff, _lastErr, ctx, w =>
      let w := { w with clock := w.clock + (delay : Int) }
      match reinvoke w with
      | (.ok v, w) =>
          let w := { w with optResult := v }
          let ctx := { ctx with
            result := some v
            duration := some (w.optDuration.getD 0)
            exception := none }
          let w := triggerInert "after" cfg.nAfter ctx w
          (ctx, w, none)
      | (.error e, w) => retryLoop reinvoke cfg n (delay * backoff) backoff (some e) ctx w

/-- One `on_error` hook invocation.  `retry_on_error` first checks that
the context holds an option or action back-reference (hooks.py:97-99) and
reads the stored exception as the initial `last_error` (hooks.py:89,95);
`popExc` removes the `exception` key; `inert` reads the context and
returns. -/
def runOHook (reinvoke : World → Except Exc Val × World) (cfg : OptCfg) :
    OHook → Ctx → World → Ctx × World × Option Exc
  | .retryH maxR delay backoff, ctx, w =>
      if ctx.hasTarget then retryLoop reinvoke cfg maxR delay backoff ctx.exception ctx w
      else (ctx, w, none)
  | .popExc, ctx, w => ({ ctx with exception := none }, w, none)
  | .inert, ctx, w => (ctx, w, none)

/-- The hook loop of `HookManager.trigger` for the `on_error` phase
(hook_manager.py:54-66): run the hooks in order; when a hook raises,
catch its exception and immediately `raise context.get("exception") from
hook_error`, skipping the remaining hooks (when the `exception` key is
absent this is `raise None`, a `TypeError`). -/
def onErrGo (reinvoke : World → Except Exc Val × World) (cfg : OptCfg) :
    List OHook → Ctx → World → Ctx × World × Option Exc
  | [], ctx, w => (ctx, w, none)
  | h :: rest, ctx, w =>
      let w := { w with trace := w.trace ++ [Event.hookRun ctx.inv "on_error" ctx.duration] }
      match runOHook reinvoke cfg h ctx w with
      | (ctx, w, none) => onErrGo reinvoke cfg rest ctx w
      | (ctx, w, some eH) =>
          (ctx, w, some (match ctx.exception with
            | some orig => .chained orig eH
            | none => .typeErr))

/-- `run_async(self.hooks.trigger("on_error", context))` (option.py:86 /
action.py:55): record the phase trigger, then run the `on_error` hooks. -/
def triggerOnError (reinvoke : World → Except Exc Val × World) (cfg : OptCfg)
    (ctx : Ctx) (w : World) : Ctx × World × Option Exc :=
  let w := { w with trace := w.trace ++ [Event.trig ctx.inv "on_error" ctx.duration] }
  onErrGo reinvoke cfg cfg.onError ctx w

/-- The `finally` block of `Option.__call__` (option.py:91-96) /
`BaseAction.__call__` (action.py:60-65): stop the timer, set
`context["duration"] = self.get_duration()`, trigger `after` when no
`exception` key remains, always trigger `on_teardown`, then deliver
`ret` (the return value or the re-raised exception). -/
def finallyRet (cfg : OptCfg) (ctx : Ctx) (w : World) (ret : Except Exc Val) :
    Except Exc Val × World :=
  let w := stopTimer w
  let ctx := { ctx with duration := w.optDuration }
  let w := if ctx.exception = none then triggerInert "after" cfg.nAfter ctx w else w
  let w := triggerInert "on_teardown" cfg.nTeardown ctx w
  (ret, w)

/-- The `except Exception as error:` branch of `Option.__call__`
(option.py:84-90) / `BaseAction.__call__` (action.py:53-59), entered with
the exception already stored in the context: trigger `on_error`; if the
trigger itself raised, that exception propagates; otherwise, if a hook
removed the `exception` key, return `self.get_result()` as a recovery,
else re-raise the original exception — in every case through the
`finally` block. -/
def onBodyError (reinvoke : World → Except Exc Val × World) (cfg : OptCfg)
    (ctx : Ctx) (e : Exc) (w : World) : Except Exc Val × World :=
  match triggerOnError reinvoke cfg ctx w with
  | (ctx, w, some raised) => finallyRet cfg ctx w (.error raised)
  | (ctx, w, none) =>
      if ctx.exception = none then finallyRet cfg ctx w (.ok w.optResult)
      else finallyRet cfg ctx w (.error e)

/-- `Option.__call__` (option.py:69-96): build the context, start the
timer, trigger `before`, run the body; on success store the result (in
the `_result` slot and the context) and return it through the `finally`
block; on exception store it in the context and continue in
`onBodyError`.  The first argument is fuel bounding re-invocation
depth. -/
def invokeOption : Nat → OptCfg → World → Except Exc Val × World
  | 0, _, w => (.error .fuelOut, w)
  | fuel + 1, cfg, w =>
      let inv := w.nextInv
      let w := { w with nextInv := inv + 1 }
      let ctx : Ctx := { inv := inv }
      let w := startTimer w
      let w := triggerInert "before" cfg.nBefore ctx w
      match execBody cfg inv w with
      | (.ok v, w) =>
          let w := { w with optResult := v }
          let ctx := { ctx with result := some v }
          finallyRet cfg ctx w (.ok v)
      | (.error e, w) =>
          onBodyError (invokeOption fuel cfg) cfg { ctx with exception := some e } e w

/-! ## Theorems -/

/-- The list `[i, i+1, ..., i+n-1]`: the indices of `n` hooks invoked in
registration order starting at index `i`. -/
def rangeFrom : Nat → Nat → List Nat
  | _, 0 => []
  | i, n + 1 => i :: rangeFrom (i + 1) n

/-- The effect of one hook on the context as `trigger` sees it for the
non-`on_error` phases: a normal hook mutates the context, a raising hook
is caught having changed nothing. -/
def applyHook (c : HCtx) : HookB → HCtx
  | .act f => f c
  | .raises _ => c

theorem hmSet_hmSet_self (hm : HM) (k : String) (v v' : List HookB) :
    hmSet (hmSet hm k v) k v' = hmSet hm k v' := by
  induction hm with
  | nil => simp [hmSet]
  | cons p rest ih =>
      obtain ⟨k', w'⟩ := p
      by_cases h : k' = k
      · simp [hmSet, h]
      · simp [hmSet, h, ih]

theorem hmLookup_hmSet_self (hm : HM) (k : String) (v : List HookB) :
    hmLookup (hmSet hm k v) k = some v := by
  induction hm with
  | nil => simp [hmSet, hmLookup]
  | cons p rest ih =>
      obtain ⟨k', v'⟩ := p
      by_cases h : k' = k
      · simp [hmSet, hmLookup, h]
      · simp [hmSet, hmLookup, h, ih]

theorem triggerGo_not_onError (ht : String) (hne : ht ≠ "on_error") :
    ∀ (hooks : List HookB) (ctx : HCtx) (i : Nat) (acc : List Nat),
      triggerGo ht hooks ctx i acc =
        (acc ++ rangeFrom i hooks.length, .ok (hooks.foldl applyHook ctx)) := by
  intro hooks
  induction hooks with
  | nil => intro ctx i acc; simp [triggerGo, rangeFrom]
  | cons h rest ih =>
      intro ctx i acc
      cases h with
      | act f => simp [triggerGo, rangeFrom, ih, applyHook]
      | raises e => simp [triggerGo, rangeFrom, hne, ih, applyHook]

theorem triggerGo_onError_noRaise :
    ∀ (pre : List (HCtx → HCtx)) (ctx : HCtx) (i : Nat) (acc : List Nat),
      triggerGo "on_error" (pre.map HookB.act) ctx i acc =
        (acc ++ rangeFrom i pre.length, .ok (pre.foldl (fun c f => f c) ctx)) := by
  intro pre
  induction pre with
  | nil => intro ctx i acc; simp [triggerGo, rangeFrom]
  | cons f rest ih => intro ctx i acc; simp [triggerGo, rangeFrom, ih]

theorem triggerGo_onError_raise :
    ∀ (pre : List (HCtx → HCtx)) (e : Exc) (rest : List HookB) (ctx : HCtx)
      (i : Nat) (acc : List Nat),
      triggerGo "on_error" (pre.map HookB.act ++ HookB.raises e :: rest) ctx i acc =
        (acc ++ rangeFrom i (pre.length + 1),
          match (pre.foldl (fun c f => f c) ctx).exception with
          | some orig => .error (.chained orig e)
          | none => .error .typeErr) := by
  intro pre
  induction pre with
  | nil => intro e rest ctx i acc; simp [triggerGo, rangeFrom]
  | cons f pre ih => intro e rest ctx i acc; simp [triggerGo, rangeFrom, ih]

/-- C6: `HookManager.trigger` fails on a phase name outside the four
recognized phases; for a recognized phase it invokes the registered hooks
in registration order and never propagates a hook's exception, except
that in the `on_error` phase a raising hook causes the original context
exception to be re-raised chained onto the hook's exception, immediately,
with the remaining `on_error` hooks skipped.  Conjuncts: (1) an
unrecognized phase raises `ValueError`; (2) for `before`/`after`/
`on_teardown`, every registered hook is invoked in order and the call
returns normally whatever the hooks do; (3) for `on_error`, when the
hooks before the first raising hook return normally, exactly the hooks up
to and including the raising one are invoked and the stored exception is
re-raised chained onto the hook's exception; (4) for `on_error` with no
raising hook, all hooks run in order and the call returns normally. -/
theorem trigger_phase_behavior :
    (∀ (ht : String) (ctx : HCtx),
      ht ∉ (["before", "after", "on_error", "on_teardown"] : List String) →
      trigger initHM ht ctx = ([], .error (.valueErr ("Unsupported hook type: " ++ ht)))) ∧
    (∀ (ht : String) (hooks : List HookB) (ctx : HCtx), ht ≠ "on_error" →
      trigger (hmSet initHM ht hooks) ht ctx =
        (rangeFrom 0 hooks.length, .ok (hooks.foldl applyHook ctx))) ∧
    (∀ (pre : List (HCtx → HCtx)) (e : Exc) (rest : List HookB) (ctx : HCtx) (orig : Exc),
      (pre.foldl (fun c f => f c) ctx).exception = some orig →
      trigger (hmSet initHM "on_error" (pre.map HookB.act ++ HookB.raises e :: rest))
          "on_error" ctx =
        (rangeFrom 0 (pre.length + 1), .error (.chained orig e))) ∧
    (∀ (pre : List (HCtx → HCtx)) (ctx : HCtx),
      trigger (hmSet initHM "on_error" (pre.map HookB.act)) "on_error" ctx =
        (rangeFrom 0 pre.length, .ok (pre.foldl (fun c f => f c) ctx))) := by
  refine ⟨?_, ?_, ?_, ?_⟩
  · intro ht ctx hmem
    have h1 : ht ≠ "before" := by intro h; exact hmem (by simp [h])
    have h2 : ht ≠ "after" := by intro h; exact hmem (by simp [h])
    have h3 : ht ≠ "on_error" := by intro h; exact hmem (by simp [h])
    have h4 : ht ≠ "on_teardown" := by intro h; exact hmem (by simp [h])
    simp [trigger, initHM, hmLookup, Ne.symm h1, Ne.symm h2, Ne.symm h3, Ne.symm h4]
  · intro ht hooks ctx hne
    simp [trigger, hmLookup_hmSet_self, triggerGo_not_onError ht hne]
  · intro pre e rest ctx orig hexc
    simp [trigger, hmLookup_hmSet_self, triggerGo_onError_raise, hexc]
  · intro pre ctx
    simp [trigger, hmLookup_hmSet_self, triggerGo_onError_noRaise]

/-- Witness for `trigger_phase_behavior`, instantiating all four
conjuncts at concrete inputs: the unknown phase `"bogus"`; the `after`
phase with a raising hook followed by a normal one (both invoked, no
propagation); the `on_error` phase with a normal hook followed by a
raising one (stored exception re-raised chained, index 2 skipped); the
`on_error` phase with two normal hooks. -/
theorem trigger_phase_behavior_witness :
    trigger initHM "bogus" {} = ([], .error (.valueErr "Unsupported hook type: bogus")) ∧
    trigger (hmSet initHM "after" [HookB.raises (.userErr 1), HookB.act id]) "after" {} =
      ([0, 1], .ok ([HookB.raises (.userErr 1), HookB.act id].foldl applyHook {})) ∧
    trigger
        (hmSet initHM "on_error"
          ([id].map HookB.act ++ HookB.raises (.userErr 2) :: [HookB.act id]))
        "on_error" { exception := some (.userErr 3) } =
      ([0, 1], .error (.chained (.userErr 3) (.userErr 2))) ∧
    trigger (hmSet initHM "on_error" ([id, id].map HookB.act)) "on_error"
        { exception := some (.userErr 3) } =
      ([0, 1], .ok { exception := some (.userErr 3) }) := by
  refine ⟨?_, ?_, ?_, ?_⟩
  · exact trigger_phase_behavior.1 "bogus" {} (by decide)
  · exact trigger_phase_behavior.2.1 "after" [HookB.raises (.userErr 1), HookB.act id] {}
      (by decide)
  · exact trigger_phase_behavior.2.2.1 [id] (.userErr 2) [HookB.act id]
      { exception := some (.userErr 3) } (.userErr 3) rfl
  · exact trigger_phase_behavior.2.2.2 [id, id] { exception := some (.userErr 3) }

/-- C10 counterexample: for the phase name `""` — a name outside the four
recognized phases — `HookManager.clear` does *not* create a new empty
entry: `if hook_type:` treats the empty string as falsy, so the
else-branch empties the four existing phases instead, and `register` and
`trigger` still reject `""` afterwards. -/
theorem clear_empty_string_counterexample :
    hmClear initHM (some "") = initHM ∧
    hmLookup (hmClear initHM (some "")) "" = none ∧
    register (hmClear initHM (some "")) "" (HookB.act id) =
      .error (.valueErr "Unsupported hook type: ") ∧
    (trigger (hmClear initHM (some "")) "" {}).2 =
      .error (.valueErr "Unsupported hook type: ") := by
  refine ⟨rfl, rfl, rfl, rfl⟩

/-- C10 amended: calling `HookManager.clear` with a *non-empty* phase
name outside the four recognized phases does not fail; it creates that
phase as a new empty entry in `_hooks`, after which `register` accepts
the previously unknown phase and `trigger` runs its hooks.  (For the
empty string, a phase name the claim also covers, the truthiness test in
`clear` sends it to the clear-all branch instead; see the
counterexample.) -/
theorem clear_creates_unknown_phase :
    ∀ p : String, p ≠ "" →
      p ∉ (["before", "after", "on_error", "on_teardown"] : List String) →
      hmLookup initHM p = none ∧
      hmLookup (hmClear initHM (some p)) p = some [] ∧
      (∀ h : HookB, register (hmClear initHM (some p)) p h =
        .ok (hmSet (hmClear initHM (some p)) p [h])) ∧
      (∀ (f : HCtx → HCtx) (ctx : HCtx),
        trigger (hmSet (hmClear initHM (some p)) p [HookB.act f]) p ctx =
          ([0], .ok (f ctx))) := by
  intro p hne hmem
  have h1 : p ≠ "before" := by intro h; exact hmem (by simp [h])
  have h2 : p ≠ "after" := by intro h; exact hmem (by simp [h])
  have h3 : p ≠ "on_error" := by intro h; exact hmem (by simp [h])
  have h4 : p ≠ "on_teardown" := by intro h; exact hmem (by simp [h])
  have hlook : hmLookup initHM p = none := by
    simp [initHM, hmLookup, Ne.symm h1, Ne.symm h2, Ne.symm h3, Ne.symm h4]
  have hclear : hmClear initHM (some p) = hmSet initHM p [] := by
    simp [hmClear, hne]
  refine ⟨hlook, ?_, ?_, ?_⟩
  · rw [hclear, hmLookup_hmSet_self]
  · intro h
    simp [register, hclear, hmLookup_hmSet_self]
  · intro f ctx
    rw [hclear, hmSet_hmSet_self]
    simp [trigger, hmLookup_hmSet_self, triggerGo]

/-- Witness for `clear_creates_unknown_phase` at the concrete phase name
`"bogus"` and a concrete hook. -/
theorem clear_creates_unknown_phase_witness :
    hmLookup initHM "bogus" = none ∧
    hmLookup (hmClear initHM (some "bogus")) "bogus" = some [] ∧
    register (hmClear initHM (some "bogus")) "bogus" (HookB.act id) =
      .ok (hmSet (hmClear initHM (some "bogus")) "bogus" [HookB.act id]) ∧
    trigger (hmSet (hmClear initHM (some "bogus")) "bogus" [HookB.act id]) "bogus"
        { name := "n" } =
      ([0], .ok { name := "n" }) := by
  obtain ⟨a, b, c, d⟩ := clear_creates_unknown_phase "bogus" (by decide) (by decide)
  exact ⟨a, b, c (HookB.act id), d id { name := "n" }⟩

/-- C9: inserting an option whose key collides case-insensitively with an
existing option key or with the back-option key fails with
`OptionAlreadyExistsError`, and consequently the key-uniqueness invariant
— all stored option keys distinct and distinct from the back-option key,
compared case-insensitively — holds for the initial menu and is preserved
by every successful `add_option` and `update_back_option`. -/
theorem menu_key_uniqueness :
    (∀ (m : MenuReg) (key : String),
      pyUpper key ∈ m.optKeys ∨ pyUpper key = pyUpper m.backKey →
      addOption m key =
        .error (.optionExists ("Option with key '" ++ key ++ "' already exists."))) ∧
    (∀ (m : MenuReg) (key : String) (m' : MenuReg),
      MenuRegInv m → addOption m key = .ok m' → MenuRegInv m') ∧
    (∀ (m : MenuReg) (key : String) (m' : MenuReg),
      MenuRegInv m → updateBackOption m key = .ok m' → MenuRegInv m') ∧
    MenuRegInv initMenuReg := by
  refine ⟨?_, ?_, ?_, ?_⟩
  · intro m key h
    simp [addOption, validateOptionKey, h]
  · intro m key m' hinv hadd
    rw [addOption] at hadd
    by_cases hc : pyUpper key ∈ m.optKeys ∨ pyUpper key = pyUpper m.backKey
    · rw [validateOptionKey, if_pos hc] at hadd; cases hadd
    · rw [validateOptionKey, if_neg hc] at hadd
      push_neg at hc
      obtain ⟨hc1, hc2⟩ := hc
      cases hadd
      obtain ⟨hnd, hback⟩ := hinv
      constructor
      · simp [dictInsertKey, hc1, List.nodup_append, hnd]
      · simp only [dictInsertKey, hc1, if_neg, if_false, List.mem_append,
          List.mem_singleton, not_or]
        exact ⟨hback, fun h => hc2 h.symm⟩
  · intro m key m' hinv hupd
    rw [updateBackOption] at hupd
    by_cases hc : pyUpper key ∈ m.optKeys ∨ pyUpper key = pyUpper m.backKey
    · rw [validateOptionKey, if_pos hc] at hupd; cases hupd
    · rw [validateOptionKey, if_neg hc] at hupd
      push_neg at hc
      obtain ⟨hc1, _⟩ := hc
      cases hupd
      exact ⟨hinv.1, hc1⟩
  · exact ⟨List.nodup_nil, by simp [initMenuReg]⟩

/-- Witness for `menu_key_uniqueness`: on a menu holding key `"A"` with
back key `"0"`, inserting `"a"` fails (case-insensitive duplicate),
inserting `"0"` fails (back-option collision), and a successful insertion
of `"B"` preserves the invariant. -/
theorem menu_key_uniqueness_witness :
    addOption ⟨["A"], "0"⟩ "a" =
      .error (.optionExists "Option with key 'a' already exists.") ∧
    addOption ⟨["A"], "0"⟩ "0" =
      .error (.optionExists "Option with key '0' already exists.") ∧
    MenuRegInv ⟨["A", "B"], "0"⟩ := by
  refine ⟨?_, ?_, ?_⟩
  · exact menu_key_uniqueness.1 ⟨["A"], "0"⟩ "a" (by decide)
  · exact menu_key_uniqueness.1 ⟨["A"], "0"⟩ "0" (by decide)
  · exact menu_key_uniqueness.2.1 ⟨["A"], "0"⟩ "B" ⟨["A", "B"], "0"⟩
      ⟨by decide, by decide⟩ (by decide)

theorem chainRollbackCalls_eq_filter (l : List ChainChild) :
    chainRollbackCalls l = (l.filter (·.hasRollback)).map (·.name) := by
  induction l with
  | nil => simp [chainRollbackCalls]
  | cons c rest ih =>
      by_cases h : c.hasRollback
      · rcases hr : c.rollbackResult with e | u <;>
          simp [chainRollbackCalls, h, hr, ih]
      · simp [chainRollbackCalls, h, ih]

theorem chainGo_failure (c : ChainChild) (post : List ChainChild) (e : Exc)
    (hc : c.body = .error e) :
    ∀ (pre stack : List ChainChild), (∀ x ∈ pre, x.body.isOk = true) →
      chainGo stack (pre ++ c :: post) =
        (pre.map (·.name) ++ [c.name],
         chainRollbackCalls (stack ++ pre).reverse, .error e) := by
  intro pre
  induction pre with
  | nil =>
      intro stack _
      simp [chainGo, hc]
  | cons x pre ih =>
      intro stack hpre
      have hx : x.body.isOk = true := hpre x (by simp)
      rcases hbx : x.body with ex | vx
      · rw [hbx] at hx; cases hx
      · have := ih (stack ++ [x]) (fun y hy => hpre y (by simp [hy]))
        simp [chainGo, hbx, this]

/-- C5: when child `i` of a `ChainedAction` raises, every earlier child
`j < i` that is a leaf `Action` with a non-null `rollback` has its
rollback invoked exactly once, in reverse completion order (`i-1` down to
`0`); a raising rollback is caught (the loop continues); the chain
re-raises the original exception; and the children after `i` are never
invoked.  The invoked children are exactly `pre ++ [c]`, the rollback
invocations are exactly the rollbackable members of `pre` in reverse
order, and the outcome is the original exception. -/
theorem chain_rollback_on_failure (pre : List ChainChild) (c : ChainChild)
    (post : List ChainChild) (e : Exc)
    (hpre : ∀ x ∈ pre, x.body.isOk = true) (hc : c.body = .error e) :
    chainRun (pre ++ c :: post) =
      (pre.map (·.name) ++ [c.name],
       ((pre.filter (·.hasRollback)).reverse).map (·.name), .error e) := by
  rw [chainRun, chainGo_failure c post e hc pre [] hpre]
  simp [chainRollbackCalls_eq_filter, List.filter_reverse, List.map_reverse]

/-- Witness for `chain_rollback_on_failure`: `Chain[A, B, C, D, E]` where
`A` and `B` are rollbackable (and `B`'s rollback itself raises), `C` has
no rollback, `D` raises and `E` follows: children `A, B, C, D` are
invoked, the rollbacks run as `B` then `A` (a raising rollback does not
stop the remaining ones), `E` never runs, and the chain re-raises `D`'s
exception. -/
theorem chain_rollback_on_failure_witness :
    chainRun
        [⟨"A", .ok .vnone, true, .ok ()⟩,
         ⟨"B", .ok .vnone, true, .error (.userErr 9)⟩,
         ⟨"C", .ok .vnone, false, .ok ()⟩,
         ⟨"D", .error (.userErr 1), false, .ok ()⟩,
         ⟨"E", .ok .vnone, false, .ok ()⟩] =
      (["A", "B", "C", "D"], ["B", "A"], .error (.userErr 1)) := by
  have h := chain_rollback_on_failure
    [⟨"A", .ok .vnone, true, .ok ()⟩,
     ⟨"B", .ok .vnone, true, .error (.userErr 9)⟩,
     ⟨"C", .ok .vnone, false, .ok ()⟩]
    ⟨"D", .error (.userErr 1), false, .ok ()⟩
    [⟨"E", .ok .vnone, false, .ok ()⟩] (.userErr 1)
    (by intro x hx; fin_cases hx <;> rfl) rfl
  simpa using h

/-- C8 counterexample: an `Option` invoked with positional arguments
`[1, 2]` and a keyword argument does *not* pass them to a raw callable:
`Option._execute_action` calls `self.action()` with no arguments
whenever the action is not a `BaseAction`, so a callable that reports
its positional arguments receives the empty tuple, not `[1, 2]`. -/
theorem executeAction_raw_drops_args_counterexample :
    executeAction (.raw fun args _ => .vargs args) [1, 2] [("k", 3)] = .vargs [] ∧
    Val.vargs [] ≠ Val.vargs [1, 2] := ⟨rfl, by decide⟩

/-- C8 amended: `Option._execute_action` passes the invocation's
positional and keyword arguments through to the action only when the
action is a `BaseAction`; a raw callable is invoked with no arguments at
all (`self.action()`). -/
theorem executeAction_argument_passing :
    (∀ (f : List Nat → List (String × Nat) → Val) (args : List Nat)
        (kwargs : List (String × Nat)),
      executeAction (.base f) args kwargs = f args kwargs) ∧
    (∀ (f : List Nat → List (String × Nat) → Val) (args : List Nat)
        (kwargs : List (String × Nat)),
      executeAction (.raw f) args kwargs = f [] []) :=
  ⟨fun _ _ _ => rfl, fun _ _ _ => rfl⟩

/-- C1: invoking an `ActionGroup` never raises an `AggregateError` — no
such class exists in the repository — and never attaches the collected
`(child_name, exception)` pairs to the context.  The body
`ActionGroup._run_async` raises `TypeError` for *every* input, failing
children or not, because its very first statement calls
`self.hooks.trigger("before", name=self.name)` with a keyword argument
`trigger`'s signature does not accept; so even the success branch of the
claim ("when no child fails, the body returns normally") fails.  For
contrast, the spec-modelled body (`actionGroupSpecModel`) raises the
aggregate `(name, exception)` list on a failing child and returns
normally otherwise. -/
theorem actionGroup_raises_typeError :
    (∀ children : List (String × Except Exc Val),
      actionGroupRunAsync children = .error .typeErr) ∧
    actionGroupSpecModel [("C", .error (.userErr 0))] = .error [("C", .userErr 0)] ∧
    actionGroupSpecModel [("C", .ok (.vnat 1))] = .ok ⟨[("C", .vnat 1)], []⟩ :=
  ⟨fun _ => rfl, rfl, rfl⟩

/-- C4 counterexample: a menu constructed with `never_confirm=True`
holding an option whose action raises: `run_headless("A")` does *not*
raise `MenuError` although the action failed and nothing recovered the
error — `_handle_action_error` returns `True` because `never_confirm` is
set, so the failure is swallowed and the stale `_result` slot (`None`)
is returned. -/
theorem runHeadless_swallows_failure_counterexample :
    runHeadless
        { options := [("A", ⟨"Apply", false, .error (.userErr 7), .vnone⟩)],
          backKey := "0", backOpt := ⟨"Back", false, .ok .vnone, .vnone⟩,
          neverConfirm := true, continueOnErrorPrompt := true }
        true true "A" = .ok .vnone := by decide

/-- C4 amended: `run_headless(key)` raises `MenuError` exactly when the
key is not registered (with a message naming the key), when the option's
confirmation is aborted, when the action is interrupted
(`KeyboardInterrupt`/`EOFError`), or when the option's action fails *and*
the error handler decides not to continue — i.e. the continue-prompt is
answered negatively, or both `continue_on_error_prompt` and
`never_confirm` are off; only in that failure case is the `MenuError`
chained on the underlying exception.  When the handler decides to
continue (in particular whenever `never_confirm` is set), the failure is
swallowed and the stale cached result is returned; on success the
freshly cached result is returned.  (Hooks cannot recover an error in
this dispatcher: `Hooks.run_hooks` swallows every hook exception and
ignores hook effects.) -/
theorem runHeadless_menuError_cases :
    (∀ (m : HMenu) (cA cC : Bool) (key : String), getOption m key = none →
      runHeadless m cA cC key =
        .error (.menuErr ("[Headless] Option '" ++ key ++ "' not found."))) ∧
    (∀ (m : HMenu) (cA cC : Bool) (key : String) (opt : HOpt),
      getOption m key = some opt → shouldRunAction m opt cA = false →
      runHeadless m cA cC key =
        .error (.menuErr ("[Headless] '" ++ opt.description ++
          "' cancelled by confirmation."))) ∧
    (∀ (m : HMenu) (cA cC : Bool) (key : String) (opt : HOpt) (v : Val),
      getOption m key = some opt → shouldRunAction m opt cA = true →
      opt.body = .ok v → runHeadless m cA cC key = .ok v) ∧
    (∀ (m : HMenu) (cA cC : Bool) (key : String) (opt : HOpt),
      getOption m key = some opt → shouldRunAction m opt cA = true →
      opt.body = .error .interrupted →
      runHeadless m cA cC key =
        .error (.menuErr ("[Headless] '" ++ opt.description ++ "' interrupted by user."))) ∧
    (∀ (m : HMenu) (cA cC : Bool) (key : String) (opt : HOpt) (e : Exc),
      getOption m key = some opt → shouldRunAction m opt cA = true →
      opt.body = .error e → e ≠ .interrupted → handleActionError m cC = false →
      runHeadless m cA cC key =
        .error (.chained (.menuErr ("[Headless] '" ++ opt.description ++ "' failed.")) e)) ∧
    (∀ (m : HMenu) (cA cC : Bool) (key : String) (opt : HOpt) (e : Exc),
      getOption m key = some opt → shouldRunAction m opt cA = true →
      opt.body = .error e → e ≠ .interrupted → handleActionError m cC = true →
      runHeadless m cA cC key = .ok opt.prior) := by
  refine ⟨?_, ?_, ?_, ?_, ?_, ?_⟩
  · intro m cA cC key hget
    simp [runHeadless, hget]
  · intro m cA cC key opt hget hconf
    simp [runHeadless, hget, hconf]
  · intro m cA cC key opt v hget hconf hbody
    simp [runHeadless, hget, hconf, hbody]
  · intro m cA cC key opt hget hconf hbody
    simp [runHeadless, hget, hconf, hbody]
  · intro m cA cC key opt e hget hconf hbody hne hstop
    cases e <;> simp [runHeadless, hget, hconf, hbody, hstop]
    exact absurd rfl hne
  · intro m cA cC key opt e hget hconf hbody hne hcont
    cases e <;> simp [runHeadless, hget, hconf, hbody, hcont]
    exact absurd rfl hne

/-- Witness for `runHeadless_menuError_cases`: the missing-key case at
the unregistered key `"ZZ"` (the message names the key) and the
failure-with-stop case where the `MenuError` is chained on the
underlying exception. -/
theorem runHeadless_menuError_cases_witness :
    runHeadless
        { options := [("A", ⟨"Apply", false, .ok (.vnat 3), .vnone⟩)],
          backKey := "0", backOpt := ⟨"Back", false, .ok .vnone, .vnone⟩,
          neverConfirm := false, continueOnErrorPrompt := true }
        true true "ZZ" =
      .error (.menuErr "[Headless] Option 'ZZ' not found.") ∧
    runHeadless
        { options := [("A", ⟨"Apply", false, .error (.userErr 7), .vnone⟩)],
          backKey := "0", backOpt := ⟨"Back", false, .ok .vnone, .vnone⟩,
          neverConfirm := false, continueOnErrorPrompt := true }
        true false "A" =
      .error (.chained (.menuErr "[Headless] 'Apply' failed.") (.userErr 7)) := by
  constructor
  · have h := runHeadless_menuError_cases.1
      { options := [("A", ⟨"Apply", false, .ok (.vnat 3), .vnone⟩)],
        backKey := "0", backOpt := ⟨"Back", false, .ok .vnone, .vnone⟩,
        neverConfirm := false, continueOnErrorPrompt := true }
      true true "ZZ" (by decide)
    simpa using h
  · have h := runHeadless_menuError_cases.2.2.2.2.1
      { options := [("A", ⟨"Apply", false, .error (.userErr 7), .vnone⟩)],
        backKey := "0", backOpt := ⟨"Back", false, .ok .vnone, .vnone⟩,
        neverConfirm := false, continueOnErrorPrompt := true }
      true false "A" ⟨"Apply", false, .error (.userErr 7), .vnone⟩ (.userErr 7)
      (by decide) (by decide) rfl (by decide) (by decide)
    simpa using h

/-- Number of times phase `phase` of invocation `inv` was triggered in a
trace. -/
def trigCount (inv : Nat) (phase : String) (tr : List Event) : Nat :=
  tr.countP fun ev =>
    match ev with
    | .trig i ph _ => i == inv && ph == phase
    | _ => false

/-- Number of times phase `phase` was triggered in a trace, over all
invocations. -/
def phaseTrigCount (phase : String) (tr : List Event) : Nat :=
  tr.countP fun ev =>
    match ev with
    | .trig _ ph _ => ph == phase
    | _ => false

/-- An `Option` with one `before` hook, one `after` hook, one
`on_teardown` hook and a `RetryHandler(maxR, delay, backoff)` registered
as its only `on_error` hook, whose body raises `e` on its first
execution and returns `v` on every later one — the "flaky then
recovered" scenario of the retry claims. -/
def retryScenario (e : Exc) (v : Val) (maxR delay backoff : Nat) : OptCfg :=
  { nBefore := 1, onError := [.retryH maxR delay backoff], nAfter := 1, nTeardown := 1,
    sched := fun k => if k = 0 then .error e else .ok v }

/-- Like `retryScenario` but the body fails on its first two executions
(with `e`) and succeeds from the third on. -/
def retryScenario2 (e : Exc) (v : Val) (maxR delay backoff : Nat) : OptCfg :=
  { nBefore := 1, onError := [.retryH maxR delay backoff], nAfter := 1, nTeardown := 1,
    sched := fun k => if k < 2 then .error e else .ok v }

/-- C2 counterexample: an `Option` whose body fails once and whose
`RetryHandler` `on_error` hook recovers it on the first retry.  The
invocation returns the retried value (the recovery the claim describes),
but the `after` phase of the recovered invocation is triggered *twice* —
once by `retry_on_error` itself (hooks.py:118-119) and once by the
enclosing lifecycle (option.py:94-95) — not exactly once as claimed. -/
theorem retry_after_double_trigger_counterexample :
    (invokeOption 6 (retryScenario (.userErr 0) (.vnat 7) 3 1 2) {}).1 =
      .ok (.vnat 7) ∧
    trigCount 0 "after"
      (invokeOption 6 (retryScenario (.userErr 0) (.vnat 7) 3 1 2) {}).2.trace = 2 :=
  ⟨rfl, rfl⟩

/-- C2 amended: after a `RetryHandler` recovery the `after` phase runs
with the recovered invocation's context exactly *twice* — once triggered
by the retry handler on retry success, once by the enclosing lifecycle's
`finally` block — for any failing exception, any recovery value and any
positive retry budget; the nested re-invocation performed by the retry
additionally triggers its own `after` once with its own context.  With a
body that fails twice, each recovered level again sees exactly two
`after` triggers and the innermost (directly successful) invocation one. -/
theorem retry_after_trigger_count :
    ∀ (e : Exc) (v : Val) (m d b : Nat),
      (invokeOption 6 (retryScenario e v (m + 1) d b) {}).1 = .ok v ∧
      trigCount 0 "after"
        (invokeOption 6 (retryScenario e v (m + 1) d b) {}).2.trace = 2 ∧
      trigCount 1 "after"
        (invokeOption 6 (retryScenario e v (m + 1) d b) {}).2.trace = 1 ∧
      (invokeOption 6 (retryScenario2 e v (m + 1) d b) {}).1 = .ok v ∧
      trigCount 0 "after"
        (invokeOption 6 (retryScenario2 e v (m + 1) d b) {}).2.trace = 2 ∧
      trigCount 1 "after"
        (invokeOption 6 (retryScenario2 e v (m + 1) d b) {}).2.trace = 2 ∧
      trigCount 2 "after"
        (invokeOption 6 (retryScenario2 e v (m + 1) d b) {}).2.trace = 1 := by
  intro e v m d b
  refine ⟨?_, ?_, ?_, ?_, ?_, ?_, ?_⟩ <;>
    simp [invokeOption, onBodyError, retryScenario, retryScenario2, retryLoop, runOHook, onErrGo,
      triggerOnError, finallyRet, triggerInert, execBody, startTimer, stopTimer, tick,
      trigCount, phaseTrigCount]

/-- C7 counterexample: in the same recovered-retry run, the target's
`before` phase is triggered *twice* — once for the original invocation
and once more when `retry_on_error` re-invokes the target, because the
re-invocation `target(*args, **kwargs)` (hooks.py:108) re-enters
`Option.__call__`, which triggers `before` (option.py:79) — so retries
are not bypassing the `before` phase. -/
theorem retry_refires_before_counterexample :
    phaseTrigCount "before"
      (invokeOption 6 (retryScenario (.userErr 0) (.vnat 7) 3 1 2) {}).2.trace = 2 ∧
    trigCount 1 "before"
      (invokeOption 6 (retryScenario (.userErr 0) (.vnat 7) 3 1 2) {}).2.trace = 1 :=
  ⟨rfl, rfl⟩

/-- C7 amended: each retry attempt re-invokes the target as a whole call,
so the target's `before` phase *is* triggered once per retry
re-invocation, inside the nested invocation's lifecycle, in addition to
the original invocation's `before`: with one failure the `before` phase
fires twice (once in nested invocation 1), with two failures three times
(the nested retry chains one level deeper), for any exception, value,
delay, backoff and positive retry budget. -/
theorem retry_refires_before :
    ∀ (e : Exc) (v : Val) (m d b : Nat),
      phaseTrigCount "before"
        (invokeOption 6 (retryScenario e v (m + 1) d b) {}).2.trace = 2 ∧
      trigCount 1 "before"
        (invokeOption 6 (retryScenario e v (m + 1) d b) {}).2.trace = 1 ∧
      phaseTrigCount "before"
        (invokeOption 6 (retryScenario2 e v (m + 1) d b) {}).2.trace = 3 ∧
      trigCount 2 "before"
        (invokeOption 6 (retryScenario2 e v (m + 1) d b) {}).2.trace = 1 := by
  intro e v m d b
  refine ⟨?_, ?_, ?_, ?_⟩ <;>
    simp [invokeOption, onBodyError, retryScenario, retryScenario2, retryLoop, runOHook, onErrGo,
      triggerOnError, finallyRet, triggerInert, execBody, startTimer, stopTimer, tick,
      trigCount, phaseTrigCount]

/-- The duration discipline an event of a lifecycle trace satisfies: any
`after` or `on_teardown` phase trigger — and any hook invocation of those
phases — happens with `context["duration"]` set to a non-negative value,
while an `on_error` phase trigger happens with `context["duration"]`
still unset (`None`): the lifecycle stops the timer only in its `finally`
block, after the `on_error` phase.  (An `on_error` *hook* may run with a
set duration: an earlier `on_error` hook, such as a recovering
`RetryHandler`, writes `context["duration"]` before the remaining hooks
of the phase run — hence no `on_error` clause for `hookRun`.) -/
def EvOk : Event → Prop
  | .trig _ ph d =>
      (ph = "after" ∨ ph = "on_teardown" → ∃ n, d = some n ∧ 0 ≤ n) ∧
      (ph = "on_error" → d = none)
  | .hookRun _ ph d => ph = "after" ∨ ph = "on_teardown" → ∃ n, d = some n ∧ 0 ≤ n
  | .bodyRun _ _ => True

/-- Well-formedness of a world: the recorded timer start is not in the
future, any stored duration is non-negative, and every event of the trace
so far satisfies the duration discipline. -/
def WOk (w : World) : Prop :=
  w.optStart ≤ w.clock ∧ (∀ n, w.optDuration = some n → 0 ≤ n) ∧ ∀ ev ∈ w.trace, EvOk ev

theorem triggerInert_wok (phase : String) (n : Nat) (ctx : Ctx) (w : World)
    (hw : WOk w)
    (hctx : phase = "after" ∨ phase = "on_teardown" → ∃ k, ctx.duration = some k ∧ 0 ≤ k)
    (hctx2 : phase = "on_error" → ctx.duration = none) :
    WOk (triggerInert phase n ctx w) := by
  obtain ⟨h1, h2, h3⟩ := hw
  refine ⟨h1, h2, ?_⟩
  intro ev hev
  simp only [triggerInert, List.mem_append, List.mem_singleton, List.mem_replicate] at hev
  rcases hev with (hev | hev) | hev
  · exact h3 ev hev
  · subst hev; exact ⟨hctx, hctx2⟩
  · rw [hev.2]; exact hctx

theorem execBody_wok (cfg : OptCfg) (inv : Nat) (w : World) (hw : WOk w) :
    WOk (execBody cfg inv w).2 := by
  obtain ⟨h1, h2, h3⟩ := hw
  refine ⟨by simp [execBody]; omega, h2, ?_⟩
  intro ev hev
  simp only [execBody, List.mem_append, List.mem_singleton] at hev
  rcases hev with hev | hev
  · exact h3 ev hev
  · subst hev; trivial

theorem startTimer_wok (w : World) (hw : WOk w) : WOk (startTimer w) :=
  ⟨le_refl _, hw.2.1, hw.2.2⟩

theorem stopTimer_wok (w : World) (hw : WOk w) : WOk (stopTimer w) := by
  obtain ⟨h1, h2, h3⟩ := hw
  refine ⟨by simp [stopTimer, tick]; omega, ?_, h3⟩
  intro n hn
  simp only [stopTimer, tick, Option.some.injEq] at hn
  omega

theorem retryLoop_wok (reinvoke : World → Except Exc Val × World) (cfg : OptCfg)
    (hre : ∀ w, WOk w → WOk (reinvoke w).2) :
    ∀ (n delay backoff : Nat) (lastErr : Option Exc) (ctx : Ctx) (w : World), WOk w →
      WOk (retryLoop reinvoke cfg n delay backoff lastErr ctx w).2.1 := by
  intro n
  induction n with
  | zero => intro delay backoff lastErr ctx w hw; exact hw
  | succ n ih =>
      intro delay backoff lastErr ctx w hw
      simp only [retryLoop]
      have hw1 : WOk { w with clock := w.clock + (delay : Int) } := by
        obtain ⟨h1, h2, h3⟩ := hw
        exact ⟨by simp; omega, h2, h3⟩
      rcases hr : reinvoke { w with clock := w.clock + (delay : Int) } with ⟨res, w'⟩
      have hw' : WOk w' := by
        have h := hre _ hw1
        rw [hr] at h
        exact h
      cases res with
      | ok v =>
          apply triggerInert_wok
          · exact ⟨hw'.1, hw'.2.1, hw'.2.2⟩
          · intro _
            refine ⟨w'.optDuration.getD 0, rfl, ?_⟩
            rcases hd : w'.optDuration with _ | k
            · simp
            · simpa using hw'.2.1 k hd
          · intro h
            exact absurd h (by decide)
      | error e => exact ih (delay * backoff) backoff (some e) ctx w' hw'

theorem runOHook_wok (reinvoke : World → Except Exc Val × World) (cfg : OptCfg)
    (hre : ∀ w, WOk w → WOk (reinvoke w).2) :
    ∀ (h : OHook) (ctx : Ctx) (w : World), WOk w →
      WOk (runOHook reinvoke cfg h ctx w).2.1 := by
  intro h ctx w hw
  cases h with
  | retryH maxR delay backoff =>
      simp only [runOHook]
      by_cases ht : ctx.hasTarget
      · simp only [ht, if_true]
        exact retryLoop_wok reinvoke cfg hre maxR delay backoff ctx.exception ctx w hw
      · simp only [ht, if_false]
        exact hw
  | popExc => exact hw
  | inert => exact hw

theorem onErrGo_wok (reinvoke : World → Except Exc Val × World) (cfg : OptCfg)
    (hre : ∀ w, WOk w → WOk (reinvoke w).2) :
    ∀ (hooks : List OHook) (ctx : Ctx) (w : World), WOk w →
      WOk (onErrGo reinvoke cfg hooks ctx w).2.1 := by
  intro hooks
  induction hooks with
  | nil => intro ctx w hw; exact hw
  | cons h rest ih =>
      intro ctx w hw
      simp only [onErrGo]
      have hw1 : WOk { w with
          trace := w.trace ++ [Event.hookRun ctx.inv "on_error" ctx.duration] } := by
        obtain ⟨h1, h2, h3⟩ := hw
        refine ⟨h1, h2, ?_⟩
        intro ev hev
        simp only [List.mem_append, List.mem_singleton] at hev
        rcases hev with hev | hev
        · exact h3 ev hev
        · subst hev
          intro hph
          exact absurd hph (by decide)
      rcases hro : runOHook reinvoke cfg h ctx
          { w with trace := w.trace ++ [Event.hookRun ctx.inv "on_error" ctx.duration] }
        with ⟨ctx', w', r⟩
      have hw' : WOk w' := by
        have hwr := runOHook_wok reinvoke cfg hre h ctx
          { w with trace := w.trace ++ [Event.hookRun ctx.inv "on_error" ctx.duration] } hw1
        rw [hro] at hwr
        exact hwr
      cases r with
      | none => exact ih ctx' w' hw'
      | some eH => exact hw'

theorem triggerOnError_wok (reinvoke : World → Except Exc Val × World) (cfg : OptCfg)
    (hre : ∀ w, WOk w → WOk (reinvoke w).2) (ctx : Ctx) (w : World) (hw : WOk w)
    (hd : ctx.duration = none) :
    WOk (triggerOnError reinvoke cfg ctx w).2.1 := by
  unfold triggerOnError
  apply onErrGo_wok reinvoke cfg hre
  obtain ⟨h1, h2, h3⟩ := hw
  refine ⟨h1, h2, ?_⟩
  intro ev hev
  simp only [List.mem_append, List.mem_singleton] at hev
  rcases hev with hev | hev
  · exact h3 ev hev
  · subst hev
    constructor
    · intro hph
      exact absurd hph (by decide)
    · intro _
      exact hd

theorem finallyRet_wok (cfg : OptCfg) (ctx : Ctx) (w : World) (ret : Except Exc Val)
    (hw : WOk w) : WOk (finallyRet cfg ctx w ret).2 := by
  have hst : WOk (stopTimer w) := stopTimer_wok w hw
  have hdur : ∃ k, (stopTimer w).optDuration = some k ∧ 0 ≤ k :=
    ⟨w.clock + 1 - w.optStart, by simp [stopTimer, tick], by have := hw.1; omega⟩
  unfold finallyRet
  apply triggerInert_wok
  · split
    · apply triggerInert_wok
      · exact hst
      · intro _; simpa using hdur
      · intro h; exact absurd h (by decide)
    · exact hst
  · intro _; simpa using hdur
  · intro h; exact absurd h (by decide)

theorem onBodyError_wok (reinvoke : World → Except Exc Val × World) (cfg : OptCfg)
    (hre : ∀ w, WOk w → WOk (reinvoke w).2) (ctx : Ctx) (e : Exc) (w : World)
    (hw : WOk w) (hd : ctx.duration = none) :
    WOk (onBodyError reinvoke cfg ctx e w).2 := by
  unfold onBodyError
  rcases hto : triggerOnError reinvoke cfg ctx w with ⟨ctx2, w5, r⟩
  have hw5 : WOk w5 := by
    have h := triggerOnError_wok reinvoke cfg hre ctx w hw hd
    rw [hto] at h
    exact h
  cases r with
  | some raised => exact finallyRet_wok cfg ctx2 w5 _ hw5
  | none =>
      by_cases hc : ctx2.exception = none
      · simp only [hc, if_true, if_pos]
        exact finallyRet_wok cfg ctx2 w5 _ hw5
      · simp only [hc, if_false, if_neg, ite_false]
        exact finallyRet_wok cfg ctx2 w5 _ hw5

theorem invokeOption_wok (cfg : OptCfg) :
    ∀ (fuel : Nat) (w : World), WOk w → WOk (invokeOption fuel cfg w).2 := by
  intro fuel
  induction fuel with
  | zero => intro w hw; exact hw
  | succ f ih =>
      intro w hw
      simp only [invokeOption]
      have hw1 : WOk { w with nextInv := w.nextInv + 1 } := ⟨hw.1, hw.2.1, hw.2.2⟩
      have hw2 : WOk (startTimer { w with nextInv := w.nextInv + 1 }) :=
        startTimer_wok _ hw1
      have hw3 : WOk (triggerInert "before" cfg.nBefore { inv := w.nextInv }
          (startTimer { w with nextInv := w.nextInv + 1 })) := by
        apply triggerInert_wok _ _ _ _ hw2
        · intro h; exact absurd h (by decide)
        · intro h; exact absurd h (by decide)
      rcases he : execBody cfg w.nextInv (triggerInert "before" cfg.nBefore
          { inv := w.nextInv } (startTimer { w with nextInv := w.nextInv + 1 }))
        with ⟨res, w4⟩
      have hw4 : WOk w4 := by
        have h := execBody_wok cfg w.nextInv _ hw3
        rw [he] at h
        exact h
      cases res with
      | ok v =>
          apply finallyRet_wok
          exact ⟨hw4.1, hw4.2.1, hw4.2.2⟩
      | error e =>
          exact onBodyError_wok (invokeOption f cfg) cfg ih
            { inv := w.nextInv, exception := some e } e w4 hw4 rfl

/-- C3 counterexample: an `Option`/`Action` invocation whose body raises
and whose only `on_error` hook is an observation hook: the hook runs
while `context["duration"]` is still `None` — the lifecycle triggers
`on_error` (option.py:86 / action.py:55) *before* the `finally` block
stops the timer and sets `context["duration"]` (option.py:92-93 /
action.py:61-62) — so the duration is not set by the time an `on_error`
hook runs, and the invocation re-raises the body's exception. -/
theorem onError_hook_sees_unset_duration_counterexample :
    Event.hookRun 0 "on_error" none ∈
      (invokeOption 6 ⟨0, [.inert], 1, 1, fun _ => .error (.userErr 5)⟩ {}).2.trace ∧
    (invokeOption 6 ⟨0, [.inert], 1, 1, fun _ => .error (.userErr 5)⟩ {}).1 =
      .error (.userErr 5) := by decide

/-- C3 amended: for every invocation in the lifecycle model — any hook
configuration, any body schedule, any fuel, starting from any well-formed
world — every `after` and `on_teardown` phase trigger and hook invocation
in the trace happens with `context["duration"]` set to a non-negative
value, while every `on_error` phase trigger happens with
`context["duration"]` still unset (`None`); `on_error` *hooks* can
therefore observe an unset duration (see the counterexample), the set
values coming only from an earlier recovering hook of the same phase. -/
theorem after_teardown_hooks_see_duration :
    ∀ (cfg : OptCfg) (fuel : Nat) (w : World), WOk w →
      ∀ ev ∈ (invokeOption fuel cfg w).2.trace, EvOk ev :=
  fun cfg fuel w hw => (invokeOption_wok cfg fuel w hw).2.2

/-- Witness for `after_teardown_hooks_see_duration`: in the concrete
failing run of the counterexample's configuration, the `on_teardown`
trigger carries the set, non-negative duration `2`. -/
theorem after_teardown_hooks_see_duration_witness :
    EvOk (Event.trig 0 "on_teardown" (some 2)) :=
  after_teardown_hooks_see_duration
    ⟨0, [.inert], 1, 1, fun _ => .error (.userErr 5)⟩ 6 {}
    ⟨le_refl 0, fun _ h => Option.noConfusion h, fun _ h => absurd h (List.not_mem_nil _)⟩
    (Event.trig 0 "on_teardown" (some 2)) (by decide)

end MenuSpec
